import Mathlib

/-!
Verification of the goga reverse-proxy gateway against its specification.

Bytes are modelled as `Nat` (one entry per byte), Go strings as Lean `String`,
instants (`time.Time`) as `Int` nanosecond-free abstract ticks, and durations as
`Int`.  Stateful Go code is modelled by explicit state passing; code consulting
the wall clock receives the current instant `now` as an argument.  External
collaborators that are not part of this repository (the Go standard library's
JSON decoder, the compiled `regexp` matchers, the AES-GCM AEAD core and the
compression codecs) enter the model as explicit function parameters; everything
else is translated from the repository's source.
-/

namespace Goga

/-- Bytes of a Lean string, one `Nat` per character (all modelled text is ASCII,
matching Go's byte-wise view of these strings). -/
def strBytes (s : String) : List Nat :=
  s.data.map Char.toNat

/-- Inverse direction, used for Go's `string(bytes)` conversions. -/
def bytesToStr (l : List Nat) : String :=
  String.mk (l.map Char.ofNat)

/-- First index at which `needle` occurs in `hay` (Go `bytes.Index` / `strings.Index`). -/
def firstIndexOf (hay needle : List Nat) : Option Nat :=
  match hay with
  | [] => if needle.isEmpty then some 0 else none
  | _ :: t => if needle.isPrefixOf hay then some 0 else (firstIndexOf t needle).map (· + 1)

/-- Go `bytes.Contains` / `strings.Contains`. -/
def listContains (hay needle : List Nat) : Bool :=
  (firstIndexOf hay needle).isSome

/-- Go `strings.Contains` on strings. -/
def strContains (s sub : String) : Bool :=
  listContains (strBytes s) (strBytes sub)

/-! ### Key cache (`internal/gateway/keycache.go`)

The in-memory cache maps a token to a key together with an absolute expiry
instant.  The Go map guarded by the `RWMutex` is modelled as an association
list with at most one binding per token; the sequential model collapses the
read-lock / write-lock upgrade dance of `Get` into a single atomic step, which
is exactly the behaviour the locking is there to guarantee. -/

/-- `cacheEntry` from keycache.go: key bytes plus absolute expiry instant. -/
structure CacheEntry where
  key : List Nat
  expiresAt : Int
deriving DecidableEq, Repr

/-- The cache contents (the `items` map). -/
abbrev KeyCacheS := List (String × CacheEntry)

/-- Map lookup `kc.items[token]`. -/
def kcLookup (c : KeyCacheS) (token : String) : Option CacheEntry :=
  match c with
  | [] => none
  | (t, e) :: rest => if t = token then some e else kcLookup rest token

/-- Map deletion `delete(kc.items, token)`. -/
def kcDelete (c : KeyCacheS) (token : String) : KeyCacheS :=
  match c with
  | [] => []
  | (t, e) :: rest => if t = token then kcDelete rest token else (t, e) :: kcDelete rest token

/-- `KeyCache.Set`: stamp a fresh expiry `now + ttl` and store the entry
(map assignment replaces any previous binding). -/
def kcSet (c : KeyCacheS) (now : Int) (token : String) (key : List Nat) (ttl : Int) : KeyCacheS :=
  (token, ⟨key, now + ttl⟩) :: kcDelete c token

/-- `KeyCache.Get`: return the key unless the entry is missing or expired;
an entry observed to be expired (`time.Now().After(expiresAt)`, i.e. strictly
later) is deleted before reporting a miss.  Returns the result together with
the possibly-updated cache. -/
def kcGet (c : KeyCacheS) (now : Int) (token : String) : Option (List Nat) × KeyCacheS :=
  match kcLookup c token with
  | none => (none, c)
  | some e => if now > e.expiresAt then (none, kcDelete c token) else (some e.key, c)

theorem kcLookup_kcDelete (c : KeyCacheS) (token : String) :
    kcLookup (kcDelete c token) token = none := by
  induction c with
  | nil => rfl
  | cons p rest ih =>
    obtain ⟨t, e⟩ := p
    by_cases h : t = token
    · simpa [kcDelete, h] using ih
    · simpa [kcDelete, kcLookup, h] using ih

theorem kcLookup_kcSet (c : KeyCacheS) (now : Int) (token : String) (key : List Nat) (ttl : Int) :
    kcLookup (kcSet c now token key ttl) token = some ⟨key, now + ttl⟩ := by
  simp [kcSet, kcLookup]

/-- C5 counterexample: insert at `t = 0` with TTL `d = 5`; a lookup at the
boundary instant `t + d = 5` still returns the key, because the code's expiry
test `time.Now().After(expiresAt)` is strict.  The claim demands that every
lookup at a time `≥ t + d` report absent, so the claim as stated is false. -/
theorem kcGet_at_exact_expiry :
    (kcGet (kcSet [] 0 ("tok") [1] 5) 5 ("tok")).1 = some [1] := by
  decide

/-- C5 (amended): a token inserted at `t` with TTL `d` is visible to every
lookup at instants in `[t, t+d]` (boundary inclusive), is invisible to lookups
strictly after `t + d` — for those the expired entry is deleted before the miss
is reported — and `Get` in general never returns a key past its recorded
expiry. -/
theorem keycache_ttl_expiry (c : KeyCacheS) (token : String) (key : List Nat) (t d n : Int) :
    (t ≤ n → n ≤ t + d → (kcGet (kcSet c t token key d) n token).1 = some key)
    ∧ (n > t + d →
        kcGet (kcSet c t token key d) n token =
          (none, kcDelete (kcSet c t token key d) token)
        ∧ kcLookup (kcDelete (kcSet c t token key d) token) token = none)
    ∧ (∀ k, (kcGet c n token).1 = some k →
        ∃ e, kcLookup c token = some e ∧ e.key = k ∧ n ≤ e.expiresAt) := by
  refine ⟨?_, ?_, ?_⟩
  · intro _ hle
    have hnot : ¬ n > t + d := by omega
    simp [kcGet, kcLookup_kcSet, hnot]
  · intro hgt
    refine ⟨?_, kcLookup_kcDelete _ _⟩
    simp [kcGet, kcLookup_kcSet, hgt]
  · intro k hk
    cases hl : kcLookup c token with
    | none => simp [kcGet, hl] at hk
    | some e =>
      by_cases hexp : n > e.expiresAt
      · simp [kcGet, hl, hexp] at hk
      · refine ⟨e, rfl, ?_, by omega⟩
        simpa [kcGet, hl, hexp] using hk

/-- Witness for `keycache_ttl_expiry` at a concrete instantiation. -/
theorem keycache_ttl_expiry_witness :
    (kcGet (kcSet [] 0 ("a") [7] 10) 3 ("a")).1 = some [7]
    ∧ kcGet (kcSet [] 0 ("a") [7] 10) 11 ("a") =
        (none, kcDelete (kcSet [] 0 ("a") [7] 10) ("a")) := by
  exact ⟨(keycache_ttl_expiry [] ("a") [7] 0 10 3).1 (by decide) (by decide),
    ((keycache_ttl_expiry [] ("a") [7] 0 10 11).2.1 (by decide)).1⟩

/-! ### JSON end finder (`findJSONEnd`, middleware copy shipped in the tree)

A byte-level scan that skips leading whitespace, requires an opening brace, and
then walks the bytes keeping a brace counter while ignoring braces inside
string literals and skipping backslash-escaped characters.  It returns the
index of the closing brace of the outermost object, or -1. -/

/-- Whitespace accepted by the finder: space, tab, newline, carriage return. -/
def isWsByte (c : Nat) : Bool :=
  c = 32 || c = 9 || c = 10 || c = 13

/-- Length of the run of leading whitespace (the `start` skip loop). -/
def skipWs : List Nat → Nat
  | [] => 0
  | c :: t => if isWsByte c then skipWs t + 1 else 0

/-- The scan loop of `findJSONEnd`, one constructor case per loop iteration.
`idx` is the absolute index of the current byte, `depth` the brace counter,
`inS` the inside-string flag, `esc` the pending-escape flag.
Byte values: 92 is a backslash, 34 a double quote, 123 an opening brace and
125 a closing brace. -/
def fjeAux : List Nat → Nat → Int → Bool → Bool → Int
  | [], _, _, _, _ => -1
  | c :: t, idx, depth, inS, esc =>
    if esc then fjeAux t (idx + 1) depth inS false
    else if c = 92 then fjeAux t (idx + 1) depth inS true
    else if c = 34 then fjeAux t (idx + 1) depth (!inS) false
    else if !inS && c = 123 then fjeAux t (idx + 1) (depth + 1) inS false
    else if !inS && c = 125 then
      if depth - 1 = 0 then (idx : Int) else fjeAux t (idx + 1) (depth - 1) inS false
    else fjeAux t (idx + 1) depth inS esc

/-- `findJSONEnd` translated from the source: empty input and input whose first
non-whitespace byte is not an opening brace yield -1; otherwise the scan runs
from the first non-whitespace byte with all counters cleared. -/
def findJSONEnd (data : List Nat) : Int :=
  if data.length = 0 then -1
  else
    match (data.drop (skipWs data)).head? with
    | none => -1
    | some c =>
      if c = 123 then fjeAux (data.drop (skipWs data)) (skipWs data) 0 false false else -1

/-- Scanner state, for the specification side. -/
structure ScanSt where
  depth : Int
  inStr : Bool
  esc : Bool
deriving DecidableEq, Repr

/-- One specification step of the balanced-brace scan: escaped characters are
consumed without effect, a backslash arms the escape flag, a quote toggles the
string flag, and braces outside strings move the depth. -/
def scanStep (st : ScanSt) (c : Nat) : ScanSt :=
  if st.esc then { st with esc := false }
  else if c = 92 then { st with esc := true }
  else if c = 34 then { st with inStr := !st.inStr }
  else if !st.inStr && c = 123 then { st with depth := st.depth + 1 }
  else if !st.inStr && c = 125 then { st with depth := st.depth - 1 }
  else st

/-- Scan a byte list from a given state. -/
def scan (st : ScanSt) (l : List Nat) : ScanSt :=
  l.foldl scanStep st

/-- The byte at position `n` closes the outermost object when it is an
unescaped closing brace outside any string and the depth about to be closed
is exactly 1. -/
def closesAt (st : ScanSt) (l : List Nat) (n : Nat) : Bool :=
  let pre := scan st (l.take n)
  !pre.esc && !pre.inStr && decide (pre.depth = 1) && decide (l[n]? = some 125)

/-- Declarative reading of the spec sentence: after skipping whitespace the
input must start with an opening brace, and the result is the first position
at which the balanced scan closes the outermost object, or -1 when no such
position exists. -/
def jsonEndSpec (data : List Nat) : Int :=
  let t := data.drop (skipWs data)
  if t.head? = some 123 then
    match (List.range t.length).find? (closesAt ⟨0, false, false⟩ t) with
    | some n => ((skipWs data + n : Nat) : Int)
    | none => -1
  else -1

/-- Result of the bounded first-close search, shifted to absolute indices. -/
def findRes (idx : Nat) (st : ScanSt) (l : List Nat) : Int :=
  match (List.range l.length).find? (closesAt st l) with
  | some n => ((idx + n : Nat) : Int)
  | none => -1

theorem find?_range_succ (p : Nat → Bool) (n : Nat) :
    (List.range (n + 1)).find? p =
      if p 0 then some 0 else ((List.range n).find? (fun i => p (i + 1))).map (· + 1) := by
  rw [List.range_succ_eq_map]
  by_cases h : p 0 = true
  · simp [List.find?_cons, h]
  · simp only [List.find?_cons, h, if_false, Bool.false_eq_true, List.find?_map]
    rfl

theorem closesAt_zero (st : ScanSt) (c : Nat) (t : List Nat) :
    closesAt st (c :: t) 0 =
      (!st.esc && !st.inStr && decide (st.depth = 1) && decide (c = 125)) := by
  simp [closesAt, scan]

theorem closesAt_succ (st : ScanSt) (c : Nat) (t : List Nat) (n : Nat) :
    closesAt st (c :: t) (n + 1) = closesAt (scanStep st c) t n := by
  simp [closesAt, scan, List.take_succ_cons]

theorem findRes_cons (c : Nat) (t : List Nat) (idx : Nat) (st : ScanSt)
    (h0 : closesAt st (c :: t) 0 = false) :
    findRes idx st (c :: t) = findRes (idx + 1) (scanStep st c) t := by
  unfold findRes
  rw [List.length_cons, find?_range_succ, h0]
  have h1 : (fun i => closesAt st (c :: t) (i + 1)) = closesAt (scanStep st c) t := by
    funext i; exact closesAt_succ st c t i
  rw [if_neg (by simp), h1]
  cases hx : (List.range t.length).find? (closesAt (scanStep st c) t) with
  | none => simp
  | some n => simp; omega

theorem findRes_cons_close (c : Nat) (t : List Nat) (idx : Nat) (st : ScanSt)
    (h0 : closesAt st (c :: t) 0 = true) :
    findRes idx st (c :: t) = (idx : Int) := by
  unfold findRes
  rw [List.length_cons, find?_range_succ, h0]
  simp

theorem fjeAux_eq_findRes (l : List Nat) :
    ∀ (idx : Nat) (st : ScanSt), fjeAux l idx st.depth st.inStr st.esc = findRes idx st l := by
  induction l with
  | nil => intro idx st; simp [fjeAux, findRes]
  | cons c t ih =>
    intro idx st
    obtain ⟨d, inS, esc⟩ := st
    cases esc with
    | true =>
      have h0 : closesAt ⟨d, inS, true⟩ (c :: t) 0 = false := by
        simp [closesAt_zero]
      rw [findRes_cons c t idx _ h0, ← ih (idx + 1) (scanStep ⟨d, inS, true⟩ c)]
      simp [fjeAux, scanStep]
    | false =>
      by_cases h92 : c = 92
      · have h0 : closesAt ⟨d, inS, false⟩ (c :: t) 0 = false := by
          simp [closesAt_zero, h92]
        rw [findRes_cons c t idx _ h0, ← ih (idx + 1) (scanStep ⟨d, inS, false⟩ c)]
        simp [fjeAux, scanStep, h92]
      by_cases h34 : c = 34
      · have h0 : closesAt ⟨d, inS, false⟩ (c :: t) 0 = false := by
          simp [closesAt_zero, h34]
        rw [findRes_cons c t idx _ h0, ← ih (idx + 1) (scanStep ⟨d, inS, false⟩ c)]
        simp [fjeAux, scanStep, h92, h34]
      cases inS with
      | true =>
        have h0 : closesAt ⟨d, true, false⟩ (c :: t) 0 = false := by
          simp [closesAt_zero]
        rw [findRes_cons c t idx _ h0, ← ih (idx + 1) (scanStep ⟨d, true, false⟩ c)]
        simp [fjeAux, scanStep, h92, h34]
      | false =>
        by_cases h123 : c = 123
        · have h0 : closesAt ⟨d, false, false⟩ (c :: t) 0 = false := by
            simp [closesAt_zero, h123]
          rw [findRes_cons c t idx _ h0, ← ih (idx + 1) (scanStep ⟨d, false, false⟩ c)]
          simp [fjeAux, scanStep, h92, h34, h123]
        by_cases h125 : c = 125
        · by_cases hd : d = 1
          · have h0 : closesAt ⟨d, false, false⟩ (c :: t) 0 = true := by
              simp [closesAt_zero, h125, hd]
            rw [findRes_cons_close c t idx _ h0]
            simp [fjeAux, h92, h34, h123, h125, hd]
          · have h0 : closesAt ⟨d, false, false⟩ (c :: t) 0 = false := by
              simp [closesAt_zero, hd]
            rw [findRes_cons c t idx _ h0, ← ih (idx + 1) (scanStep ⟨d, false, false⟩ c)]
            have hsub : ¬ d - 1 = 0 := by omega
            simp [fjeAux, scanStep, h92, h34, h123, h125, hsub]
        · have h0 : closesAt ⟨d, false, false⟩ (c :: t) 0 = false := by
            simp [closesAt_zero, h125]
          rw [findRes_cons c t idx _ h0, ← ih (idx + 1) (scanStep ⟨d, false, false⟩ c)]
          simp [fjeAux, scanStep, h92, h34, h123, h125]

/-- C8: the translated `findJSONEnd` coincides with the declarative reading of
the spec sentence — for input whose first non-whitespace byte is an opening
brace, it returns the absolute index of the first byte at which the balanced
scan (ignoring braces inside string literals and backslash-escaped characters)
closes the outermost object, and -1 for every other input (no opening brace
after whitespace, or no balancing close in the data); moreover every
non-negative result points at a closing-brace byte. -/
theorem findJSONEnd_meets_spec (data : List Nat) :
    findJSONEnd data = jsonEndSpec data
    ∧ (∀ n : Nat, findJSONEnd data = (n : Int) → data[n]? = some 125) := by
  have hmain : findJSONEnd data = jsonEndSpec data := by
    unfold findJSONEnd jsonEndSpec
    cases data with
    | nil => simp
    | cons b rest =>
      simp only [List.length_cons, Nat.succ_ne_zero, if_false]
      cases hh : ((b :: rest).drop (skipWs (b :: rest))).head? with
      | none => simp [hh]
      | some c =>
        by_cases hc : c = 123
        · subst hc
          have := fjeAux_eq_findRes ((b :: rest).drop (skipWs (b :: rest)))
            (skipWs (b :: rest)) ⟨0, false, false⟩
          simpa [findRes] using this
        · simp [hc]
  refine ⟨hmain, ?_⟩
  intro n hn
  rw [hmain] at hn
  unfold jsonEndSpec at hn
  by_cases hh : ((data.drop (skipWs data)).head? = some 123)
  · rw [if_pos hh] at hn
    cases hfind : (List.range (data.drop (skipWs data)).length).find?
        (closesAt ⟨0, false, false⟩ (data.drop (skipWs data))) with
    | none => rw [hfind] at hn; simp at hn
    | some m =>
      rw [hfind] at hn
      simp only [] at hn
      have hm := List.find?_some hfind
      have hget : (data.drop (skipWs data))[m]? = some 125 := by
        have := (Bool.and_eq_true _ _).mp hm
        exact of_decide_eq_true this.2
      have hidx : n = skipWs data + m := by omega
      rw [hidx, ← List.getElem?_drop]
      exact hget
  · rw [if_neg hh] at hn; omega

/-- Concrete witness data for the finder: two leading spaces, then an object
containing a closing brace inside a string literal; the closing brace of the
object sits at index 11. -/
def fjeWitnessData : List Nat :=
  strBytes ("  \x7b\"a\":\"b\x7d\"\x7d")

/-- Witness for `findJSONEnd_meets_spec`. -/
theorem findJSONEnd_meets_spec_witness :
    findJSONEnd fjeWitnessData = jsonEndSpec fjeWitnessData
    ∧ fjeWitnessData[11]? = some 125 := by
  exact ⟨(findJSONEnd_meets_spec fjeWitnessData).1,
    (findJSONEnd_meets_spec fjeWitnessData).2 11 (by decide)⟩

/-! ### Base64 (Go `encoding/base64` StdEncoding decode path)

`decryptReader.parseJSON` decodes the `encrypted` field with
`base64.StdEncoding.DecodeString`; the decoder ignores carriage returns and
newlines and otherwise consumes four-character quanta over the standard
alphabet, with `=` padding allowed only in the final quantum. -/

/-- Value of a standard-alphabet base64 character. -/
def b64Val (c : Nat) : Option Nat :=
  if 65 ≤ c ∧ c ≤ 90 then some (c - 65)
  else if 97 ≤ c ∧ c ≤ 122 then some (c - 97 + 26)
  else if 48 ≤ c ∧ c ≤ 57 then some (c - 48 + 52)
  else if c = 43 then some 62
  else if c = 47 then some 63
  else none

/-- Decode whole quanta; 61 is the padding character. -/
def b64Groups : List Nat → Option (List Nat)
  | [] => some []
  | a :: b :: c :: d :: rest =>
    match b64Val a, b64Val b with
    | some va, some vb =>
      if c = 61 then
        if d = 61 ∧ rest = [] then some [va * 4 + vb / 16] else none
      else
        match b64Val c with
        | some vc =>
          if d = 61 then
            if rest = [] then some [va * 4 + vb / 16, (vb % 16) * 16 + vc / 4] else none
          else
            match b64Val d with
            | some vd =>
              (b64Groups rest).map
                (fun tail => (va * 4 + vb / 16) :: ((vb % 16) * 16 + vc / 4) ::
                  ((vc % 4) * 64 + vd) :: tail)
            | none => none
        | none => none
    | _, _ => none
  | _ => none

/-- `base64.StdEncoding.DecodeString` on the bytes of the field. -/
def base64Decode (s : List Nat) : Option (List Nat) :=
  b64Groups (s.filter (fun c => decide (c ≠ 13 ∧ c ≠ 10)))

/-! ### Symmetric decryption (`internal/crypto/crypto.go`)

The AEAD core (`cipher.NewGCM(aes.NewCipher(key)).Open`) is the Go standard
library, not repository code; it enters the model as the `GcmOpen` parameter:
key, nonce and ciphertext-with-tag in, authenticated plaintext or failure out. -/

abbrev GcmOpen := List Nat → List Nat → List Nat → Option (List Nat)

def AES256KeySize : Nat := 32

def gcmNonceSize : Nat := 12

/-- `DecryptAES256GCM`: reject keys that are not 32 bytes and inputs shorter
than the nonce, split off the 12-byte nonce prefix, then open. -/
def decryptAES256GCM (gcmOpen : GcmOpen) (key data : List Nat) : Except String (List Nat) :=
  if key.length ≠ AES256KeySize then .error ("invalid key size")
  else if data.length < gcmNonceSize then .error ("ciphertext too short")
  else
    match gcmOpen key (data.take gcmNonceSize) (data.drop gcmNonceSize) with
    | some pt => .ok pt
    | none => .error ("decryption failed")

/-! ### Decryption middleware (`internal/middleware/decryption.go` and
`decrypt_reader.go`)

The request-body classifier (`DetectEncryptedRequest` / `IsEncryptedRequest`)
has no source file in the tree — only its unit tests survive — so its body
check is modelled from the spec.  The JSON unmarshalling of the two-field
envelope is the Go standard library and enters as the `JsonParser` parameter.
The compiled must-encrypt regular expressions enter as `String → Bool`
matchers.  Branches of the Go code that report 500-class errors on I/O
failures (detection failure, header read failure, plain-body read failure)
cannot fire in the pure model, where a body is a byte list. -/

/-- A parsed token/encrypted pair from `json.Unmarshal` (Go stdlib parameter);
`none` models an unmarshalling error. -/
abbrev JsonParser := List Nat → Option (String × String)

/-- An HTTP request as the middleware observes it. -/
structure Request where
  method : String
  contentType : String
  path : String
  body : List Nat
deriving DecidableEq, Repr

/-- Outcome of the middleware: either a JSON error response with an HTTP
status and machine-readable code, or the (possibly rewritten) request handed
to the wrapped handler. -/
inductive MwResult where
  | respond (status : Nat) (code : String)
  | forward (contentType : String) (body : List Nat)
deriving DecidableEq, Repr

/-- Modelled from the spec: the body side of `DetectEncryptedRequest`
(the peek-reader source file is absent from the tree).  Spec 4.4: the
classifier examines up to the first 100 bytes; the request body is in
encrypted form iff those bytes, after trimming leading whitespace, begin with
an opening brace and contain both the quoted literal substrings for the token
and encrypted fields. -/
def isEncryptedBody (body : List Nat) : Bool :=
  let peeked := body.take 100
  let trimmed := peeked.drop (skipWs peeked)
  decide (trimmed.head? = some 123) && listContains peeked (strBytes ("\"token\"")) &&
    listContains peeked (strBytes ("\"encrypted\""))

/-- The full classification: `POST`, a JSON content type, and an
encrypted-looking body. -/
def isEncryptedReq (req : Request) : Bool :=
  decide (req.method = "POST") && strContains req.contentType ("application/json") &&
    isEncryptedBody req.body

/-- The byte loop of `decryptReader.parseJSON`: append bytes until the first
closing brace; running out of input is a read error and accumulating the full
8 KiB buffer capacity without a closing brace aborts. -/
def readJSONBytesAux : List Nat → List Nat → Except String (List Nat)
  | [], _ => .error ("failed to read JSON data")
  | b :: t, acc =>
    let acc2 := acc ++ [b]
    if b = 125 then .ok acc2
    else if 8192 ≤ acc2.length then .error ("JSON data exceeds limit")
    else readJSONBytesAux t acc2

/-- The work performed by the first `Read` on a `decryptReader`: gather the
JSON header, re-parse the token/encrypted pair, base64-decode, AES-256-GCM
open, then split the framed plaintext into the one-byte content-type length,
the content-type string and the body bytes. -/
def decryptReaderRun (jsonParse : JsonParser) (gcmOpen : GcmOpen) (key body : List Nat) :
    Except String (String × List Nat) :=
  match readJSONBytesAux body [] with
  | .error e => .error e
  | .ok jsonData =>
    match jsonParse jsonData with
    | none => .error ("JSON unmarshal failed")
    | some (token, encrypted) =>
      if token = "" ∨ encrypted = "" then .error ("missing token or encrypted field")
      else
        match base64Decode (strBytes encrypted) with
        | none => .error ("base64 decode failed")
        | some encryptedData =>
          match decryptAES256GCM gcmOpen key encryptedData with
          | .error e => .error e
          | .ok dec =>
            match dec with
            | [] => .error ("decrypted payload too short")
            | ctLen :: restd =>
              if restd.length < ctLen then .error ("content-type length mismatch")
              else .ok (bytesToStr (restd.take ctLen), restd.drop ctLen)

/-- `DecryptionMiddleware`, translated branch by branch from decryption.go.
A non-POST or non-JSON request, and a POST classified as plain, go through the
plain-text path: rejected with 422 ENCRYPTION_REQUIRED when the path matches a
compiled must-encrypt pattern, forwarded unchanged otherwise.  A classified
encrypted request walks: find the end of the JSON header in the first 8 KiB
(400 MALFORMED_PAYLOAD on failure), unmarshal it (400 MALFORMED_PAYLOAD),
check both fields are present (400 INCOMPLETE_PAYLOAD), look the token up
(401 INVALID_TOKEN), run the streaming decrypter (any of its errors —
including a base64 failure — becomes 400 DECRYPTION_FAILED), then forward the
recovered body under the recovered content type (defaulting to
application/json when the frame named none).  When the recovered body is
empty, the stale single-byte prime buffer is still forwarded, because the
middleware ignores the byte count returned by the priming `Read`.
The returned cache reflects any expiry-driven deletion done by `Get`. -/
def decryptionMiddleware (matchers : List (String → Bool)) (jsonParse : JsonParser)
    (gcmOpen : GcmOpen) (cache : KeyCacheS) (now : Int) (req : Request) :
    MwResult × KeyCacheS :=
  let isMandatory := matchers.any (fun re => re req.path)
  let plainResult : MwResult :=
    if isMandatory then .respond 422 ("ENCRYPTION_REQUIRED")
    else .forward req.contentType req.body
  if req.method ≠ "POST" ∨ strContains req.contentType ("application/json") = false then
    (plainResult, cache)
  else if isEncryptedBody req.body = false then
    (plainResult, cache)
  else
    let peekData := req.body.take 8192
    if findJSONEnd peekData = -1 then (.respond 400 ("MALFORMED_PAYLOAD"), cache)
    else
      match jsonParse (peekData.take ((findJSONEnd peekData).toNat + 1)) with
      | none => (.respond 400 ("MALFORMED_PAYLOAD"), cache)
      | some (token, encrypted) =>
        if token = "" ∨ encrypted = "" then (.respond 400 ("INCOMPLETE_PAYLOAD"), cache)
        else
          match kcGet cache now token with
          | (none, cache2) => (.respond 401 ("INVALID_TOKEN"), cache2)
          | (some key, cache2) =>
            match decryptReaderRun jsonParse gcmOpen key req.body with
            | .error _ => (.respond 400 ("DECRYPTION_FAILED"), cache2)
            | .ok (ct, payload) =>
              let ct2 := if ct = "" then "application/json" else ct
              let fwdBody := if payload.isEmpty then [0] else payload
              (.forward ct2 fwdBody, cache2)

/-! ### Concrete pipeline scenario shared by several witnesses

A well-formed encrypted request: token `t1`, a 32-byte key, and an encrypted
field that is the standard base64 of a 12-byte zero nonce followed by the
framed plaintext (content-type `text/plain`, body `hi`).  The AEAD core is
instantiated with a stand-in that returns the ciphertext bytes as plaintext,
which is all the surrounding plumbing can observe. -/

def sampleKey : List Nat := List.replicate 32 1

def sampleB64 : String := "AAAAAAAAAAAAAAAACnRleHQvcGxhaW5oaQ=="

def sampleJson : String :=
  "\x7b\"token\":\"t1\",\"encrypted\":\"AAAAAAAAAAAAAAAACnRleHQvcGxhaW5oaQ==\"\x7d"

def sampleReq : Request :=
  { method := "POST", contentType := "application/json", path := "/api/login",
    body := strBytes sampleJson }

def sampleParse : JsonParser :=
  fun d => if d = strBytes sampleJson then some (("t1"), sampleB64) else none

def sampleGcm : GcmOpen := fun _ _ ct => some ct

def sampleCache : KeyCacheS := kcSet [] 0 ("t1") sampleKey 300

/-- C1 (code bug): a fully successful decryption does not remove the token
from the cache — no code path deletes on use — so a second sequential
decryption with the same token succeeds again instead of failing with
401 INVALID_TOKEN.  Both runs below return the same forwarded plaintext and
the cache passed out of the first run is fed into the second. -/
theorem token_reusable_after_successful_decrypt :
    (decryptionMiddleware [] sampleParse sampleGcm sampleCache 1 sampleReq).1 =
      .forward ("text/plain") (strBytes ("hi"))
    ∧ (decryptionMiddleware [] sampleParse sampleGcm
        (decryptionMiddleware [] sampleParse sampleGcm sampleCache 1 sampleReq).2 2 sampleReq).1 =
      .forward ("text/plain") (strBytes ("hi")) := by
  decide

/-! ### Further concrete requests -/

/-- A classified-encrypted request whose `encrypted` field is not base64. -/
def badB64Json : String := "\x7b\"token\":\"t1\",\"encrypted\":\"!!!!\"\x7d"

def badB64Req : Request :=
  { method := "POST", contentType := "application/json", path := "/api/login",
    body := strBytes badB64Json }

def badB64Parse : JsonParser :=
  fun d => if d = strBytes badB64Json then some (("t1"), ("!!!!")) else none

/-- A classified-encrypted request naming a token that is not in the cache. -/
def missTokJson : String := "\x7b\"token\":\"zz\",\"encrypted\":\"!!!!\"\x7d"

def missTokReq : Request :=
  { method := "POST", contentType := "application/json", path := "/api/login",
    body := strBytes missTokJson }

def missTokParse : JsonParser :=
  fun d => if d = strBytes missTokJson then some (("zz"), ("!!!!")) else none

/-- A plain (non-encrypted) JSON POST. -/
def plainPostReq : Request :=
  { method := "POST", contentType := "application/json", path := "/api/login",
    body := strBytes ("\x7b\"a\":1\x7d") }

/-- A GET request with no body. -/
def getLoginReq : Request :=
  { method := "GET", contentType := "", path := "/api/login", body := [] }

/-- C2 counterexample: with `encrypted := "!!!!"` (not valid standard base64)
and a valid token, the middleware answers 400 with machine-readable code
DECRYPTION_FAILED, not `base64_decode_error`; and with the same invalid field
but an unknown token it answers 401 INVALID_TOKEN, because the token lookup
precedes the base64 decode.  Both inputs satisfy the claim's premise, so the
claim as stated is false on this code. -/
theorem base64_failure_not_base64_code :
    base64Decode (strBytes ("!!!!")) = none
    ∧ (decryptionMiddleware [] badB64Parse sampleGcm sampleCache 1 badB64Req).1 =
        .respond 400 ("DECRYPTION_FAILED")
    ∧ (decryptionMiddleware [] badB64Parse sampleGcm sampleCache 1 badB64Req).1 ≠
        .respond 400 ("base64_decode_error")
    ∧ (decryptionMiddleware [] missTokParse sampleGcm sampleCache 1 missTokReq).1 =
        .respond 401 ("INVALID_TOKEN") := by
  decide

/-- C2 (amended): for every classified-encrypted POST whose JSON header parses
with both fields present, whose token is found (unexpired) in the cache, and
whose `encrypted` field fails standard base64 decoding, the middleware
responds 400 with machine-readable code DECRYPTION_FAILED — the current code
folds base64 failures into the generic decryption failure and emits no
distinct `base64_decode_error` code — and the wrapped handler is not
invoked. -/
theorem bad_base64_rejected_400 (matchers : List (String → Bool)) (jsonParse : JsonParser)
    (gcmOpen : GcmOpen) (cache : KeyCacheS) (now : Int) (req : Request)
    (token encrypted : String) (key : List Nat) (cache2 : KeyCacheS) (jsonData : List Nat)
    (henc : isEncryptedReq req = true)
    (hfje : ¬ findJSONEnd (req.body.take 8192) = -1)
    (hparse : jsonParse ((req.body.take 8192).take ((findJSONEnd (req.body.take 8192)).toNat + 1)) =
      some (token, encrypted))
    (htok : ¬ token = "") (hencne : ¬ encrypted = "")
    (hget : kcGet cache now token = (some key, cache2))
    (hread : readJSONBytesAux req.body [] = .ok jsonData)
    (hparse2 : jsonParse jsonData = some (token, encrypted))
    (hb64 : base64Decode (strBytes encrypted) = none) :
    decryptionMiddleware matchers jsonParse gcmOpen cache now req =
      (.respond 400 ("DECRYPTION_FAILED"), cache2) := by
  have hh : (req.method = "POST" ∧
      strContains req.contentType ("application/json") = true) ∧
      isEncryptedBody req.body = true := by
    simpa [isEncryptedReq, Bool.and_eq_true, decide_eq_true_iff] using henc
  obtain ⟨⟨hm, hct⟩, hbody⟩ := hh
  have hrun : decryptReaderRun jsonParse gcmOpen key req.body =
      .error ("base64 decode failed") := by
    simp [decryptReaderRun, hread, hparse2, htok, hencne, hb64]
  simp [decryptionMiddleware, hm, hct, hbody, hfje, hparse, htok, hencne, hget, hrun]

/-- Witness for `bad_base64_rejected_400` at the concrete invalid-base64
request. -/
theorem bad_base64_rejected_400_witness :
    decryptionMiddleware [] badB64Parse sampleGcm sampleCache 1 badB64Req =
      (.respond 400 ("DECRYPTION_FAILED"), sampleCache) := by
  exact bad_base64_rejected_400 [] badB64Parse sampleGcm sampleCache 1 badB64Req
    ("t1") ("!!!!") sampleKey sampleCache (strBytes badB64Json)
    (by decide) (by decide) (by decide) (by decide) (by decide) (by decide)
    (by rfl) (by decide) (by decide)

/-- Shared lemma: a request that is not classified as encrypted and whose path
matches a compiled must-encrypt pattern is rejected with
422 ENCRYPTION_REQUIRED, whatever its method. -/
theorem plain_to_mandatory_route_morphs_422 (matchers : List (String → Bool))
    (jsonParse : JsonParser) (gcmOpen : GcmOpen) (cache : KeyCacheS) (now : Int) (req : Request)
    (hany : matchers.any (fun re => re req.path) = true)
    (hplain : isEncryptedReq req = false) :
    decryptionMiddleware matchers jsonParse gcmOpen cache now req =
      (.respond 422 ("ENCRYPTION_REQUIRED"), cache) := by
  by_cases hpost : req.method = "POST"
  · by_cases hct : strContains req.contentType ("application/json") = true
    · have hbody : isEncryptedBody req.body = false := by
        cases hb : isEncryptedBody req.body with
        | false => rfl
        | true =>
          exfalso
          have ht : isEncryptedReq req = true := by
            simp [isEncryptedReq, hpost, hct, hb]
          rw [ht] at hplain
          exact absurd hplain (by decide)
      simp [decryptionMiddleware, hpost, hct, hbody, hany]
    · have hctf : strContains req.contentType ("application/json") = false := by
        simpa using hct
      simp [decryptionMiddleware, hctf, hany]
  · simp [decryptionMiddleware, hpost, hany]

/-- C6: for every request whose path matches at least one compiled
must-encrypt pattern, (a) a POST classified as plain is rejected with
422 ENCRYPTION_REQUIRED and never reaches the wrapped handler, and (b) a
classified-encrypted POST whose header parses, whose token is found in the
cache, and whose streaming decryption succeeds with a nonempty recovered body
is decrypted and forwarded to the wrapped handler under the recovered content
type. -/
theorem must_encrypt_policy (matchers : List (String → Bool)) (jsonParse : JsonParser)
    (gcmOpen : GcmOpen) (cache : KeyCacheS) (now : Int) (req : Request)
    (hm : ∃ m ∈ matchers, m req.path = true) :
    (req.method = "POST" → isEncryptedReq req = false →
      decryptionMiddleware matchers jsonParse gcmOpen cache now req =
        (.respond 422 ("ENCRYPTION_REQUIRED"), cache))
    ∧ (∀ (token encrypted : String) (key : List Nat) (cache2 : KeyCacheS)
        (ct : String) (payload : List Nat),
        isEncryptedReq req = true →
        ¬ findJSONEnd (req.body.take 8192) = -1 →
        jsonParse ((req.body.take 8192).take ((findJSONEnd (req.body.take 8192)).toNat + 1)) =
          some (token, encrypted) →
        ¬ token = "" → ¬ encrypted = "" →
        kcGet cache now token = (some key, cache2) →
        decryptReaderRun jsonParse gcmOpen key req.body = .ok (ct, payload) →
        ¬ payload = [] →
        decryptionMiddleware matchers jsonParse gcmOpen cache now req =
          (.forward (if ct = "" then ("application/json") else ct) payload, cache2)) := by
  have hany : matchers.any (fun re => re req.path) = true := by
    obtain ⟨m, hmem, hp⟩ := hm
    exact List.any_eq_true.mpr ⟨m, hmem, hp⟩
  constructor
  · intro _ hplain
    exact plain_to_mandatory_route_morphs_422 matchers jsonParse gcmOpen cache now req hany hplain
  · intro token encrypted key cache2 ct payload henc hfje hparse htok hencne hget hrun hpay
    have hh : (req.method = "POST" ∧
        strContains req.contentType ("application/json") = true) ∧
        isEncryptedBody req.body = true := by
      simpa [isEncryptedReq, Bool.and_eq_true, decide_eq_true_iff] using henc
    obtain ⟨⟨hmeth, hct⟩, hbody⟩ := hh
    have hempty : payload.isEmpty = false := by
      cases payload with
      | nil => exact absurd rfl hpay
      | cons a t => rfl
    simp [decryptionMiddleware, hmeth, hct, hbody, hfje, hparse, htok, hencne, hget, hrun,
      hempty]

/-- Witness for `must_encrypt_policy`: the sample encrypted request is
forwarded decrypted, and the same-path plain JSON POST is rejected 422. -/
theorem must_encrypt_policy_witness :
    decryptionMiddleware [fun p => p == "/api/login"] sampleParse sampleGcm sampleCache 1
        sampleReq =
      (.forward (if ("text/plain" : String) = "" then ("application/json") else ("text/plain"))
        (strBytes ("hi")), sampleCache)
    ∧ decryptionMiddleware [fun p => p == "/api/login"] sampleParse sampleGcm sampleCache 1
        plainPostReq =
      (.respond 422 ("ENCRYPTION_REQUIRED"), sampleCache) := by
  constructor
  · exact (must_encrypt_policy [fun p => p == "/api/login"] sampleParse sampleGcm sampleCache 1
      sampleReq ⟨fun p => p == "/api/login", by simp, by decide⟩).2 ("t1") sampleB64 sampleKey
      sampleCache ("text/plain") (strBytes ("hi")) (by decide) (by decide) (by decide)
      (by decide) (by decide) (by decide) (by rfl) (by decide)
  · exact (must_encrypt_policy [fun p => p == "/api/login"] sampleParse sampleGcm sampleCache 1
      plainPostReq ⟨fun p => p == "/api/login", by simp, by decide⟩).1 (by decide) (by decide)

/-- C10: the must-encrypt policy applies to every method — any request whose
path matches a compiled pattern and that is not classified as encrypted
(GET requests and POSTs without a JSON content type skip body classification
entirely and count as plain) is rejected with 422 ENCRYPTION_REQUIRED and
never reaches the wrapped handler. -/
theorem must_encrypt_rejects_all_methods (matchers : List (String → Bool))
    (jsonParse : JsonParser) (gcmOpen : GcmOpen) (cache : KeyCacheS) (now : Int) (req : Request)
    (hm : ∃ m ∈ matchers, m req.path = true)
    (hplain : isEncryptedReq req = false) :
    decryptionMiddleware matchers jsonParse gcmOpen cache now req =
      (.respond 422 ("ENCRYPTION_REQUIRED"), cache) := by
  have hany : matchers.any (fun re => re req.path) = true := by
    obtain ⟨m, hmem, hp⟩ := hm
    exact List.any_eq_true.mpr ⟨m, hmem, hp⟩
  exact plain_to_mandatory_route_morphs_422 matchers jsonParse gcmOpen cache now req hany hplain

/-- Witness for `must_encrypt_rejects_all_methods` with a GET request. -/
theorem must_encrypt_rejects_all_methods_witness :
    decryptionMiddleware [fun p => p == "/api/login"] sampleParse sampleGcm sampleCache 1
        getLoginReq =
      (.respond 422 ("ENCRYPTION_REQUIRED"), sampleCache) := by
  exact must_encrypt_rejects_all_methods [fun p => p == "/api/login"] sampleParse sampleGcm
    sampleCache 1 getLoginReq ⟨fun p => p == "/api/login", by simp, by decide⟩ (by decide)

/-! ### Response rewriter (`internal/gateway/proxy.go`, ModifyResponse)

The rewriter wired into the proxy buffers the (limited) body, attempts
decompression, and injects the configured script before the first sentinel via
`bytes.Replace(body, tag, script+tag, 1)`.  The compression codecs are third-party
libraries and enter as the `Decompress` parameter; the injection step itself
is translated below. -/

/-- The sentinel tag `</body>`. -/
def sentinelTag : List Nat := strBytes ("</body>")

/-- Go `bytes.Replace(s, old, new, 1)` for a nonempty `old`: splice `new` over
the first occurrence of `old`, or return the input unchanged. -/
def bytesReplaceOnce (s old new : List Nat) : List Nat :=
  match firstIndexOf s old with
  | none => s
  | some i => s.take i ++ new ++ s.drop (i + old.length)

/-- The injection step of ModifyResponse: replace the first sentinel
occurrence by the script immediately followed by the sentinel. -/
def injectScript (script body : List Nat) : List Nat :=
  bytesReplaceOnce body sentinelTag (script ++ sentinelTag)

theorem firstIndexOf_some (hay needle : List Nat) :
    ∀ i, firstIndexOf hay needle = some i →
      needle.isPrefixOf (hay.drop i) = true
      ∧ ∀ j < i, needle.isPrefixOf (hay.drop j) = false := by
  induction hay with
  | nil =>
    intro i h
    by_cases he : needle.isEmpty
    · have hi : i = 0 := by
        simp [firstIndexOf, he] at h
        omega
      subst hi
      cases needle with
      | nil => exact ⟨rfl, by omega⟩
      | cons a t => simp [List.isEmpty] at he
    · simp [firstIndexOf, he] at h
  | cons a t ih =>
    intro i h
    by_cases hp : needle.isPrefixOf (a :: t) = true
    · have hi : i = 0 := by
        simp [firstIndexOf, hp] at h
        omega
      subst hi
      exact ⟨hp, by omega⟩
    · have hp2 : needle.isPrefixOf (a :: t) = false := by
        cases hb : needle.isPrefixOf (a :: t)
        · rfl
        · exact absurd hb hp
      rw [firstIndexOf, if_neg (by simp [hp2])] at h
      cases hrec : firstIndexOf t needle with
      | none => rw [hrec] at h; simp at h
      | some i2 =>
        rw [hrec] at h
        simp at h
        obtain ⟨hpre, hmin⟩ := ih i2 hrec
        constructor
        · rw [← h]
          simpa using hpre
        · intro j hj
          cases j with
          | zero => simpa using hp2
          | succ j2 =>
            have : j2 < i2 := by omega
            simpa using hmin j2 this

theorem firstIndexOf_none (hay needle : List Nat) (h : firstIndexOf hay needle = none) :
    ∀ j, needle.isPrefixOf (hay.drop j) = false := by
  induction hay with
  | nil =>
    intro j
    have he : needle.isEmpty = false := by
      cases hb : needle.isEmpty
      · rfl
      · simp [firstIndexOf, hb] at h
    cases needle with
    | nil => simp [List.isEmpty] at he
    | cons a t => simp [List.isPrefixOf]
  | cons a t ih =>
    intro j
    by_cases hp : needle.isPrefixOf (a :: t) = true
    · simp [firstIndexOf, hp] at h
    · have hp2 : needle.isPrefixOf (a :: t) = false := by
        cases hb : needle.isPrefixOf (a :: t)
        · rfl
        · exact absurd hb hp
      rw [firstIndexOf, if_neg (by simp [hp2])] at h
      cases hrec : firstIndexOf t needle with
      | none =>
        cases j with
        | zero => simpa using hp2
        | succ j2 => simpa using ih hrec j2
      | some i2 => rw [hrec] at h; simp at h

theorem drop_eq_of_isPrefixOf (s needle : List Nat) (i : Nat)
    (h : needle.isPrefixOf (s.drop i) = true) :
    s.drop i = needle ++ s.drop (i + needle.length) := by
  have hpre : needle <+: s.drop i := by
    exact List.isPrefixOf_iff_prefix.mp h
  obtain ⟨t, ht⟩ := hpre
  have h2 : s.drop (i + needle.length) = t := by
    rw [← List.drop_drop, ← ht, List.drop_left]
  rw [← ht, h2]

/-- C3: the rewriter's injection step inserts the configured script bytes
exactly once, immediately before the first occurrence of the sentinel
`</body>` — the output is the input split at the first occurrence with the
script spliced in — and a body containing no sentinel passes through
byte-for-byte. -/
theorem rewriter_injects_before_first_sentinel (script body : List Nat) :
    (∀ i, firstIndexOf body sentinelTag = some i →
      sentinelTag.isPrefixOf (body.drop i) = true
      ∧ (∀ j < i, sentinelTag.isPrefixOf (body.drop j) = false)
      ∧ injectScript script body = body.take i ++ script ++ body.drop i)
    ∧ (firstIndexOf body sentinelTag = none → injectScript script body = body) := by
  constructor
  · intro i hi
    obtain ⟨hpre, hmin⟩ := firstIndexOf_some body sentinelTag i hi
    refine ⟨hpre, hmin, ?_⟩
    unfold injectScript bytesReplaceOnce
    rw [hi, drop_eq_of_isPrefixOf body sentinelTag i hpre]
    simp [List.append_assoc]
  · intro h
    unfold injectScript bytesReplaceOnce
    rw [h]

/-- Witness for `rewriter_injects_before_first_sentinel`: one body whose first
sentinel sits at index 3 (a second sentinel follows and is untouched), and one
sentinel-free body. -/
theorem rewriter_injects_before_first_sentinel_witness :
    injectScript (strBytes ("<s>")) (strBytes ("<a></body>z</body>")) =
      (strBytes ("<a></body>z</body>")).take 3 ++ strBytes ("<s>") ++
        (strBytes ("<a></body>z</body>")).drop 3
    ∧ injectScript (strBytes ("<s>")) (strBytes ("<p>hi</p>")) = strBytes ("<p>hi</p>") := by
  exact ⟨((rewriter_injects_before_first_sentinel (strBytes ("<s>"))
      (strBytes ("<a></body>z</body>"))).1 3 (by decide)).2.2,
    (rewriter_injects_before_first_sentinel (strBytes ("<s>"))
      (strBytes ("<p>hi</p>"))).2 (by decide)⟩

/-! ### ModifyResponse size ceiling -/

/-- An in-flight HTTP response as ModifyResponse observes it.  `contentEncoding
= none` models an absent Content-Encoding header. -/
structure RespCtx where
  status : Nat
  contentType : String
  contentEncoding : Option String
  body : List Nat
  contentLength : Int
deriving DecidableEq, Repr

/-- The 1 MiB budget (`maxBodySize` constant in NewProxy). -/
def maxBodySize : Nat := 1048576

/-- The gzip/zstd/brotli/lz4 decompression attempt chain — third-party codecs,
abstracted as one parameter: given the declared encoding and the bytes, return
the decompressed bytes, or `none` when every attempt fails (in which case the
Go code keeps the original bytes). -/
abbrev Decompress := Option String → List Nat → Option (List Nat)

/-- `ModifyResponse` from NewProxy: only 200 text/html responses are touched
when encryption is enabled.  The body is read through
`io.LimitReader(maxBodySize+1)`; when more than `maxBodySize` bytes arrive the
collected bytes are put back verbatim with *no* injection and the
Content-Encoding header is deleted, and the hook reports no error.  Otherwise
the body is (best-effort) decompressed, the script injected, and the
conflicting headers dropped.  Error returns of the Go hook arise only from
read failures, which the pure model has none of. -/
def modifyResponse (enabled : Bool) (script : List Nat) (tryDec : Decompress)
    (resp : RespCtx) : RespCtx :=
  if enabled && decide (resp.status = 200) && strContains resp.contentType ("text/html") then
    let body := resp.body.take (maxBodySize + 1)
    if maxBodySize < body.length then
      { resp with body := body, contentLength := (body.length : Int), contentEncoding := none }
    else
      let body2 := match tryDec resp.contentEncoding body with
        | some d => d
        | none => body
      let newBody := injectScript script body2
      { resp with
        body := newBody
        contentLength := (newBody.length : Int)
        contentEncoding := none }
  else resp

/-- C4 (code bug): an HTML response bigger than the budget is forwarded as the
first `maxBodySize + 1` bytes with no script injected and without failing the
request — but the Content-Encoding header is *deleted* even though the
forwarded bytes are still compressed, so the claim's "Content-Encoding is
preserved on the pre-decompression path" is violated: the output names no
encoding while the input declared gzip. -/
theorem oversized_response_encoding_dropped :
    modifyResponse true (strBytes ("<s>")) (fun _ _ => none)
      { status := 200, contentType := ("text/html"), contentEncoding := some ("gzip"),
        body := List.replicate (maxBodySize + 2) 65,
        contentLength := ((maxBodySize + 2 : Nat) : Int) } =
      { status := 200, contentType := ("text/html"), contentEncoding := none,
        body := List.replicate (maxBodySize + 1) 65,
        contentLength := ((maxBodySize + 1 : Nat) : Int) } := by
  have htake : (List.replicate (maxBodySize + 2) (65 : Nat)).take (maxBodySize + 1) =
      List.replicate (maxBodySize + 1) (65 : Nat) := by
    rw [List.take_replicate]
    congr 1
  have hstr : strContains ("text/html") ("text/html") = true := by decide
  have hlen : (List.replicate (maxBodySize + 1) (65 : Nat)).length = maxBodySize + 1 := by
    simp
  have hlt : maxBodySize < maxBodySize + 1 := by omega
  simp [modifyResponse, htake, hstr, hlen, hlt]

/-! ### Reverse-proxy director (`internal/gateway/proxy.go`, NewProxy)

The standard library single-host director rewrites only the URL scheme, host
and path; the code then deliberately leaves `req.Host` untouched and appends
the peer IP to X-Forwarded-For.  `net.SplitHostPort` is translated from
net/ipsock.go.  A header that is absent reads as the empty string through
`Header.Get`, which is how it is modelled. -/

/-- The parsed backend URL. -/
structure Target where
  scheme : String
  host : String
  path : String

/-- The outbound request fields the director touches or reads. -/
structure ProxyReq where
  host : String
  urlScheme : String
  urlHost : String
  urlPath : String
  remoteAddr : String
  xff : String
deriving DecidableEq, Repr

/-- First index of a character. -/
def indexOfChar (l : List Char) (c : Char) : Option Nat :=
  match l with
  | [] => none
  | a :: t => if a = c then some 0 else (indexOfChar t c).map (· + 1)

/-- Last index of a character (the `last` helper of net/ipsock.go). -/
def lastIndexOfChar (l : List Char) (c : Char) : Option Nat :=
  match indexOfChar l.reverse c with
  | none => none
  | some i => some (l.length - 1 - i)

def containsChar (l : List Char) (c : Char) : Bool :=
  (indexOfChar l c).isSome

/-- Go `net.SplitHostPort` (net/ipsock.go); `none` models an error return.
Splits on the last colon, handles the bracketed IPv6 form, and rejects stray
colons and brackets. -/
def splitHostPort (hostport : String) : Option (String × String) :=
  let l := hostport.data
  match lastIndexOfChar l ':' with
  | none => none
  | some i =>
    match l.head? with
    | none => none
    | some first =>
      if first = '[' then
        match indexOfChar l ']' with
        | none => none
        | some e =>
          if e + 1 = l.length then none
          else if e + 1 = i then
            if containsChar (l.drop 1) '[' then none
            else if containsChar (l.drop (e + 1)) ']' then none
            else some (String.mk ((l.drop 1).take (e - 1)), String.mk (l.drop (i + 1)))
          else none
      else
        if containsChar (l.take i) ':' then none
        else if containsChar l '[' then none
        else if containsChar l ']' then none
        else some (String.mk (l.take i), String.mk (l.drop (i + 1)))

/-- `singleJoiningSlash` from net/http/httputil (the stdlib director's path
join). -/
def singleJoiningSlash (a b : String) : String :=
  let aslash := a.endsWith ("/")
  let bslash := b.startsWith ("/")
  if aslash && bslash then a ++ b.drop 1
  else if !aslash && !bslash then a ++ ("/") ++ b
  else a ++ b

/-- The Director installed by NewProxy: run the standard single-host director
(which rewrites only the URL scheme, host and path and never the Host header),
then append the peer IP — host part of `remoteAddr` when it splits as
host:port, the raw `remoteAddr` otherwise — to X-Forwarded-For, setting it as
the sole value when the header was absent. -/
def gogaDirector (target : Target) (r : ProxyReq) : ProxyReq :=
  let r1 := { r with urlScheme := target.scheme, urlHost := target.host,
                     urlPath := singleJoiningSlash target.path r.urlPath }
  let clientIP := match splitHostPort r1.remoteAddr with
    | some hp => hp.1
    | none => r1.remoteAddr
  if r1.xff = "" then { r1 with xff := clientIP }
  else { r1 with xff := r1.xff ++ (", ") ++ clientIP }

/-- C9: for every request the director forwards, the inbound Host header is
preserved (the upstream host lands only in the URL), and the peer IP —
obtained by splitting the `ip:port` remote address and falling back to the
raw remote address when the split fails — is appended to X-Forwarded-For,
as the sole value when the header was absent. -/
theorem director_preserves_host_appends_xff (target : Target) (r : ProxyReq) :
    (gogaDirector target r).host = r.host
    ∧ (gogaDirector target r).xff =
        (let ip := match splitHostPort r.remoteAddr with
          | some hp => hp.1
          | none => r.remoteAddr
        if r.xff = "" then ip else r.xff ++ (", ") ++ ip)
    ∧ (gogaDirector target r).urlHost = target.host := by
  unfold gogaDirector
  by_cases h : r.xff = "" <;> simp [h]

end Goga
